import Mathlib

/-!
Shallow embedding of `src/core.py` (wdginvoice): the string helpers and greedy
word wrap, date parsing, font resolution, item-key sorting, the pagination
planner, subtotal/VAT/TOTAL accumulation, and the template/overlay page merge.

Modelling conventions: Python floats are modelled as exact rationals, Python
strings as `String` or `List Char`, `None`-able values as `Option`, and the
raising of `ValueError` as `Except String`. PDF pages are modelled as lists of
abstract content items; compositing an overlay onto a page appends its content
on top. The drawing primitives themselves (text placement, width measurement)
are external collaborators and are not modelled.
-/

/-- Whitespace as Python `str.strip` / `str.split` treat ASCII text. -/
def pyIsSpace (c : Char) : Bool :=
  c = ' ' ∨ c = '\t' ∨ c = '\n' ∨ c = '\r' ∨ c = '\x0b' ∨ c = '\x0c'

/-- Python `str.strip()`: drop whitespace from both ends. -/
def pyStrip (s : List Char) : List Char :=
  ((s.dropWhile pyIsSpace).reverse.dropWhile pyIsSpace).reverse

/-- Helper of `pySplit`; the current word is accumulated in reverse. -/
def splitAux : List Char → List Char → List (List Char)
  | [], cur => if cur = [] then [] else [cur.reverse]
  | c :: cs, cur =>
    if pyIsSpace c then
      if cur = [] then splitAux cs [] else cur.reverse :: splitAux cs []
    else
      splitAux cs (c :: cur)

/-- Python `s.split()` with no argument: split on whitespace runs, producing no
empty words. -/
def pySplit (s : List Char) : List (List Char) := splitAux s []

/-- Python `" ".join(xs)` on words or lines represented as char lists. -/
def joinSep : List (List Char) → List Char
  | [] => []
  | x :: xs => x ++ xs.flatMap (fun y => ' ' :: y)

/-- One step of the greedy loop of `_wrap_text` (src/core.py lines 165-173).
The state is `(lines, cur, cur_len)` exactly as in the source. -/
def wrapStep (max_chars : Int) (st : List (List Char) × List (List Char) × Int)
    (w : List Char) : List (List Char) × List (List Char) × Int :=
  let add : Int := (w.length : Int) + (if st.2.1 ≠ [] then 1 else 0)
  if st.2.2 + add ≤ max_chars then (st.1, st.2.1 ++ [w], st.2.2 + add)
  else (st.1 ++ [joinSep st.2.1], [w], (w.length : Int))

/-- Flush of the pending line after the loop (src/core.py lines 174-175). -/
def wrapFinish (st : List (List Char) × List (List Char) × Int) : List (List Char) :=
  if st.2.1 ≠ [] then st.1 ++ [joinSep st.2.1] else st.1

/-- Model of `_wrap_text(text, max_chars)` (src/core.py lines 154-176): `None`
yields `[]`; stripped-empty text or `max_chars <= 0` yields the single-element
list holding the stripped text; otherwise the greedy word wrap by character
count runs. -/
def _wrap_text (text : Option (List Char)) (max_chars : Int) : List (List Char) :=
  match text with
  | none => []
  | some t =>
    let s := pyStrip t
    if s = [] ∨ max_chars ≤ 0 then [s]
    else wrapFinish ((pySplit s).foldl (wrapStep max_chars) ([], [], 0))

/-- Numeric value of a digit run. -/
def digitsToNat (ds : List Char) : Nat :=
  ds.foldl (fun a c => 10 * a + (c.toNat - 48)) 0

/-- Model of Python `int(k)` on a string: surrounding whitespace is stripped, one
optional sign is allowed, then at least one decimal digit. (Underscore digit
grouping, which Python also accepts, is not modelled; no claim depends on it.) -/
def pyInt (k : String) : Option Int :=
  match pyStrip k.data with
  | '+' :: ds =>
    if ds ≠ [] ∧ ds.all Char.isDigit then some (digitsToNat ds : Int) else none
  | '-' :: ds =>
    if ds ≠ [] ∧ ds.all Char.isDigit then some (-(digitsToNat ds : Int)) else none
  | ds =>
    if ds ≠ [] ∧ ds.all Char.isDigit then some (digitsToNat ds : Int) else none

/-- Calendar date, the date part of a Python `datetime`. -/
structure PyDate where
  year : Nat
  month : Nat
  day : Nat
deriving DecidableEq

/-- Gregorian leap-year rule of Python `datetime`. -/
def isLeapYear (y : Nat) : Bool := (y % 4 = 0 ∧ y % 100 ≠ 0) ∨ y % 400 = 0

/-- Days in a month, as validated by the `datetime` constructor. -/
def daysInMonth (y m : Nat) : Nat :=
  if m = 2 then (if isLeapYear y then 29 else 28)
  else if m = 4 ∨ m = 6 ∨ m = 9 ∨ m = 11 then 30
  else 31

/-- The validity check performed by `datetime(year, month, day)`. -/
def validDate (y m d : Nat) : Bool :=
  1 ≤ y ∧ y ≤ 9999 ∧ 1 ≤ m ∧ m ≤ 12 ∧ 1 ≤ d ∧ d ≤ daysInMonth y m

/-- Field order of a `strptime` format string used by the source. -/
inductive FieldOrder where
  | dmy
  | ymd
deriving DecidableEq

/-- One `strptime` format: the field order plus the literal separator. -/
structure DateFmt where
  ord : FieldOrder
  sep : Char
deriving DecidableEq

/-- Take up to `n` leading decimal digits, greedily, like the regex `strptime`
builds for a digit field. -/
def takeDigits : Nat → List Char → List Char × List Char
  | 0, s => ([], s)
  | _ + 1, [] => ([], [])
  | n + 1, c :: cs =>
    if c.isDigit then
      let p := takeDigits n cs
      (c :: p.1, p.2)
    else ([], c :: cs)

/-- The `%d` field of CPython `strptime`: its regex is
`3[01]|[12]\d|0[1-9]|[1-9]| [1-9]`, so one or two digits, or a space followed by
a non-zero digit. Taking up to two digits greedily is equivalent to the
alternation with backtracking here, because a second digit can never equal the
separator that must follow; values the regex excludes (0, 32-99) are rejected by
the calendar-validity check below, with the same overall outcome. -/
def parseDay (s : List Char) : Option (Nat × List Char) :=
  match takeDigits 2 s with
  | ([], _) =>
    match s with
    | ' ' :: c :: rest =>
      if c.isDigit ∧ c ≠ '0' then some (c.toNat - 48, rest) else none
    | _ => none
  | (ds, rest) => some (digitsToNat ds, rest)

/-- The `%m` field of CPython `strptime`: regex `1[0-2]|0[1-9]|[1-9]`, one or
two digits with no space-padded alternative; out-of-range values are rejected by
the calendar-validity check, with the same overall outcome as the regex. -/
def parseMonth (s : List Char) : Option (Nat × List Char) :=
  match takeDigits 2 s with
  | ([], _) => none
  | (ds, rest) => some (digitsToNat ds, rest)

/-- The `%Y` field of CPython `strptime`: regex `\d\d\d\d`, exactly four
digits. -/
def parseYear4 (s : List Char) : Option (Nat × List Char) :=
  match takeDigits 4 s with
  | (ds, rest) => if ds.length = 4 then some (digitsToNat ds, rest) else none

/-- Consume the literal separator character. -/
def expectSep (sep : Char) (s : List Char) : Option (List Char) :=
  match s with
  | c :: rest => if c = sep then some rest else none
  | [] => none

/-- Model of `datetime.strptime(s, fmt)` restricted to the four formats tried at
src/core.py line 215: day and month take one or two digits (the day also a
space-padded single digit), the year exactly four digits, the separators are
literal, the whole string must be consumed, and the parsed triple must be a
valid calendar date (else `datetime` raises the same `ValueError` the loop
catches). -/
def strptime (fmt : DateFmt) (s : String) : Option PyDate :=
  match fmt.ord with
  | .dmy =>
    (parseDay s.data).bind fun p1 =>
    (expectSep fmt.sep p1.2).bind fun r2 =>
    (parseMonth r2).bind fun p2 =>
    (expectSep fmt.sep p2.2).bind fun r4 =>
    (parseYear4 r4).bind fun p3 =>
    if p3.2 = [] ∧ validDate p3.1 p2.1 p1.1 then some ⟨p3.1, p2.1, p1.1⟩ else none
  | .ymd =>
    (parseYear4 s.data).bind fun p1 =>
    (expectSep fmt.sep p1.2).bind fun r2 =>
    (parseMonth r2).bind fun p2 =>
    (expectSep fmt.sep p2.2).bind fun r4 =>
    (parseDay r4).bind fun p3 =>
    if p3.2 = [] ∧ validDate p1.1 p2.1 p3.1 then some ⟨p1.1, p2.1, p3.1⟩ else none

/-- The four formats in the order the source tries them (src/core.py line 215). -/
def dateFormats : List DateFmt :=
  [⟨.dmy, '-'⟩, ⟨.ymd, '-'⟩, ⟨.dmy, '/'⟩, ⟨.ymd, '/'⟩]

/-- The value of `data["date"]`: a native datetime or a string. -/
inductive DateInput where
  | native (d : PyDate)
  | str (s : String)

/-- The message of the `ValueError` raised when no format matches
(src/core.py line 222). -/
def unrecognizedDateMsg : String :=
  "Unrecognized date format for 'date'. Try 'DD-MM-YYYY'."

/-- Date handling of `generate_invoice` (src/core.py lines 212-223): a native
date is used unchanged; a string is tried against the four formats in order with
the first success winning; an unparseable string raises `ValueError`. -/
def parseDate : DateInput → Except String PyDate
  | .native d => Except.ok d
  | .str s =>
    match dateFormats.findSome? (fun f => strptime f s) with
    | some d => Except.ok d
    | none => Except.error unrecognizedDateMsg

/-- The fourteen built-in fonts of `reportlab.pdfbase.pdfmetrics.standardFonts`. -/
def standardFonts : List String :=
  ["Courier", "Courier-Bold", "Courier-BoldOblique", "Courier-Oblique",
   "Helvetica", "Helvetica-Bold", "Helvetica-BoldOblique", "Helvetica-Oblique",
   "Symbol", "Times-Bold", "Times-BoldItalic", "Times-Italic", "Times-Roman",
   "ZapfDingbats"]

/-- The Python value of a layout font entry: `None`, a string, or any
non-string value. -/
inductive PyVal where
  | none
  | str (s : String)
  | other
deriving DecidableEq

/-- Model of `_resolve_font` (src/core.py lines 95-112). The filesystem is
abstracted as the predicate `isFontFile`; registering a found font file under
the alias is a side effect on the external backend and the alias name is
returned. Both guards require a truthy value that is a string, so only a
non-empty string can name a file or a standard font; everything else falls
through to the built-in fallback. -/
def _resolve_font (isFontFile : String → Bool) (alias_name : String)
    (layout_value : PyVal) (bold : Bool) : String :=
  match layout_value with
  | .str s =>
    if s ≠ "" ∧ isFontFile s then alias_name
    else if s ≠ "" ∧ s ∈ standardFonts then s
    else if bold then "Helvetica-Bold" else "Helvetica"
  | _ => if bold then "Helvetica-Bold" else "Helvetica"

/-- A line-item description: a structured record (a Python dict) or a plain
string. The record field values appear only interpolated into drawn text, so
they are kept as strings. -/
inductive PyDesc where
  | dictDesc (project_name size bounding_vol surface weight : String)
  | strDesc (s : String)
deriving DecidableEq

/-- Mirror of `isinstance(desc, dict)`. -/
def isDict : PyDesc → Bool
  | .dictDesc .. => true
  | .strDesc _ => false

/-- One entry of `data["items"]`; a missing quantity or price is `none` and is
treated as 0.0 where used (src/core.py lines 298-299). -/
structure LineItem where
  description : PyDesc
  quantity : Option ℚ
  price : Option ℚ
deriving DecidableEq

/-- An item keyed by its original string identifier. -/
abbrev Entry := String × LineItem

/-- The layout hyperparameters read by the pagination planner
(src/core.py lines 17-88), as exact rationals. -/
structure LayoutCfg where
  Y_FIRST_ITEM : ℚ
  ITEM_LEADING : ℚ
  DETAIL_LEADING : ℚ
  ROW_GAP : ℚ
  PAGE_BOTTOM_Y_CUTOFF : ℚ
deriving DecidableEq

/-- Points per millimetre, `reportlab.lib.units.mm = 72 / 25.4`. -/
def mmUnit : ℚ := 360 / 127

/-- A4 page height in points. -/
def a4Height : ℚ := 297 * mmUnit

/-- The default values of the module-level `layout` table (src/core.py). -/
def defaultLayout : LayoutCfg where
  Y_FIRST_ITEM := a4Height - 112 * mmUnit
  ITEM_LEADING := 25 * mmUnit
  DETAIL_LEADING := 11
  ROW_GAP := 0
  PAGE_BOTTOM_Y_CUTOFF := 80 * mmUnit

/-- Model of `estimate_item_height` (src/core.py lines 241-250): one row height,
plus four detail-line heights when the description is a dict. -/
def estimate_item_height (cfg : LayoutCfg) (it : LineItem) : ℚ :=
  cfg.ITEM_LEADING + (if isDict it.description then 4 * cfg.DETAIL_LEADING else 0)

/-- The vertical space requested for an item, `need_h` at src/core.py line 257:
the estimated height plus the configurable inter-row gap
(`layout.get("ROW_GAP", 0.0)`, default 0). -/
def needH (cfg : LayoutCfg) (it : LineItem) : ℚ :=
  estimate_item_height cfg it + cfg.ROW_GAP

/-- The state of the pagination loop (src/core.py lines 252-254). -/
structure PlanState where
  pages : List (List Entry)
  cur_page : List Entry
  cur_y : ℚ

/-- One iteration of the pagination loop (src/core.py lines 256-264): when the
current page already holds an item and the item would cross the bottom cutoff,
close the page and reset the cursor; then place the item and advance. -/
def planStep (cfg : LayoutCfg) (s : PlanState) (e : Entry) : PlanState :=
  if s.cur_page ≠ [] ∧ s.cur_y - needH cfg e.2 < cfg.PAGE_BOTTOM_Y_CUTOFF then
    { pages := s.pages ++ [s.cur_page], cur_page := [e],
      cur_y := cfg.Y_FIRST_ITEM - needH cfg e.2 }
  else
    { pages := s.pages, cur_page := s.cur_page ++ [e],
      cur_y := s.cur_y - needH cfg e.2 }

/-- The pagination planner (src/core.py lines 252-266): fold the loop over the
item sequence and append the final page when it is non-empty. -/
def paginate (cfg : LayoutCfg) (items : List Entry) : List (List Entry) :=
  let s := items.foldl (planStep cfg) ⟨[], [], cfg.Y_FIRST_ITEM⟩
  if s.cur_page = [] then s.pages else s.pages ++ [s.cur_page]

/-- Model of `_key_int` (src/core.py lines 227-231): `int(k)`, or the sentinel
`10 ** 9` when the string is not an integer literal. -/
def _key_int (k : String) : Int :=
  match pyInt k with
  | some v => v
  | none => 10 ^ 9

/-- The sorted item sequence of src/core.py line 233. The source sorts the key
list with `sorted(..., key=_key_int)`, a stable sort, and pairs each key with
its item; for a mapping, whose keys are distinct, that equals stably sorting the
(key, item) pairs by the same key function, here by insertion sort (stable as
well). -/
def itemsSorted (m : List Entry) : List Entry :=
  List.insertionSort (fun a b => _key_int a.1 ≤ _key_int b.1) m

/-- The line amount `qty * price`, with a missing quantity or price read as 0.0
(src/core.py lines 298-300). -/
def amount (it : LineItem) : ℚ := it.quantity.getD 0 * it.price.getD 0

/-- Subtotal accumulation over the items of one drawn page
(src/core.py lines 296-301). -/
def pageSubtotal (st : ℚ) (page : List Entry) : ℚ :=
  page.foldl (fun acc e => acc + amount e.2) st

/-- Walk the pages as the drawing loop does, accumulating the running subtotal;
on the last page return the drawn `(subtotal, vat_amount, total_amount)`
(src/core.py lines 290-350), or `none` when there is no page at all. -/
def renderAmountsAux (vat : ℚ) : List (List Entry) → ℚ → Option (ℚ × ℚ × ℚ)
  | [], _ => none
  | p :: ps, st =>
    match ps with
    | [] =>
      some (pageSubtotal st p, pageSubtotal st p * vat,
            pageSubtotal st p + pageSubtotal st p * vat)
    | _ :: _ => renderAmountsAux vat ps (pageSubtotal st p)

/-- The amounts drawn on the last page, starting from subtotal 0
(src/core.py line 269). -/
def renderAmounts (vat : ℚ) (pages : List (List Entry)) : Option (ℚ × ℚ × ℚ) :=
  renderAmountsAux vat pages 0

/-- The subtotal as the spec words it: the sum of `quantity * price` over all
items across all pages. Stated from the spec for comparison with the fold the
code performs. -/
def specSubtotal (pages : List (List Entry)) : ℚ :=
  ((pages.flatten).map (fun e => amount e.2)).sum

/-- State of the merge loop (src/core.py lines 361-372). A PDF page is the list
of its content items; `merge_page` stacks the overlay content on top of the page
content, and the deep copy makes each merge target an independent value, so the
template list rides through the loop unchanged. -/
structure MergeState (α : Type) where
  blank_pages : List (List α)
  writer_pages : List (List α)

/-- One iteration of the merge loop (src/core.py lines 367-372): deep-copy the
clamped template page, composite overlay page `i` on top, append to the writer. -/
def mergeStep {α : Type} (overlay : List (List α)) (s : MergeState α) (i : Nat) :
    MergeState α :=
  let base := s.blank_pages.getD (min i (s.blank_pages.length - 1)) []
  { blank_pages := s.blank_pages,
    writer_pages := s.writer_pages ++ [base ++ overlay.getD i []] }

/-- The merge of the overlay document onto the blank template
(src/core.py lines 364-372). -/
def mergeDocs {α : Type} (blank overlay : List (List α)) : List (List α) :=
  ((List.range overlay.length).foldl (mergeStep overlay) ⟨blank, []⟩).writer_pages

/-- Concrete items used by the concrete instantiations below. -/
def itemA : LineItem := ⟨.strDesc "a", none, none⟩

/-- Second concrete plain item. -/
def itemB : LineItem := ⟨.strDesc "b", none, none⟩

/-- Concrete structured item, after the usage example at the bottom of the
source. -/
def structItem : LineItem :=
  ⟨.dictDesc "250709-Church" "468x468x440 mm" "97.25" "2.14" "27.1",
   some 1, some 894⟩

/-- Concrete plain item with a quantity and price. -/
def plainItem : LineItem := ⟨.strDesc "packaging", some 1, some 94⟩

/-! Lemmas about splitting and joining. -/

lemma splitAux_dropWhile (s : List Char) :
    splitAux (s.dropWhile pyIsSpace) [] = splitAux s [] := by
  induction s with
  | nil => rfl
  | cons c cs ih =>
    by_cases h : pyIsSpace c
    · simpa [List.dropWhile_cons, h, splitAux] using ih
    · simp [List.dropWhile_cons, h]

lemma splitAux_all_space : ∀ u cur : List Char, (∀ c ∈ u, pyIsSpace c = true) →
    splitAux u cur = if cur = [] then [] else [cur.reverse]
  | [], cur, _ => by simp [splitAux]
  | c :: u, cur, h => by
    have hc : pyIsSpace c = true := h c (by simp)
    have ih := splitAux_all_space u [] (fun d hd => h d (by simp [hd]))
    simp only [if_pos rfl] at ih
    simp [splitAux, hc, ih]

lemma splitAux_append_space : ∀ s u cur : List Char,
    (∀ c ∈ u, pyIsSpace c = true) → splitAux (s ++ u) cur = splitAux s cur
  | [], u, cur, h => by
    rw [List.nil_append, splitAux_all_space u cur h]
    simp [splitAux]
  | c :: s, u, cur, h => by
    by_cases hc : pyIsSpace c
    · simp [splitAux, hc, splitAux_append_space s u [] h]
    · simp [splitAux, hc, splitAux_append_space s u (c :: cur) h]

lemma pySplit_pyStrip (s : List Char) : pySplit (pyStrip s) = pySplit s := by
  have h1 : (s.dropWhile pyIsSpace).reverse.takeWhile pyIsSpace ++
      (s.dropWhile pyIsSpace).reverse.dropWhile pyIsSpace =
      (s.dropWhile pyIsSpace).reverse :=
    List.takeWhile_append_dropWhile pyIsSpace _
  have h2 := congrArg List.reverse h1
  rw [List.reverse_append, List.reverse_reverse] at h2
  have ht : s.dropWhile pyIsSpace =
      pyStrip s ++ ((s.dropWhile pyIsSpace).reverse.takeWhile pyIsSpace).reverse := by
    simpa [pyStrip] using h2.symm
  have hsp : ∀ c ∈ ((s.dropWhile pyIsSpace).reverse.takeWhile pyIsSpace).reverse,
      pyIsSpace c = true := by
    intro c hcm
    rw [List.mem_reverse] at hcm
    exact List.mem_takeWhile_imp hcm
  calc pySplit (pyStrip s)
      = splitAux (pyStrip s ++
          ((s.dropWhile pyIsSpace).reverse.takeWhile pyIsSpace).reverse) [] :=
        (splitAux_append_space _ _ _ hsp).symm
    _ = splitAux (s.dropWhile pyIsSpace) [] := by rw [← ht]
    _ = splitAux s [] := splitAux_dropWhile s

lemma joinSep_append_of_ne_nil (a b : List (List Char)) (ha : a ≠ []) :
    joinSep (a ++ b) = joinSep a ++ b.flatMap (fun y => ' ' :: y) := by
  match a, ha with
  | x :: xs, _ => simp [joinSep]

lemma flatMap_sep_of_ne_nil (g : List (List Char)) (hg : g ≠ []) :
    g.flatMap (fun y => ' ' :: y) = ' ' :: joinSep g := by
  match g, hg with
  | x :: xs, _ => simp [joinSep]

lemma flatMap_sep_map_joinSep (gs : List (List (List Char)))
    (h : ∀ g ∈ gs, g ≠ []) :
    (gs.map joinSep).flatMap (fun y => ' ' :: y) =
      gs.flatten.flatMap (fun y => ' ' :: y) := by
  induction gs with
  | nil => rfl
  | cons g gs ih =>
    have hg : g ≠ [] := h g (by simp)
    have ih2 := ih (fun x hx => h x (by simp [hx]))
    simp only [List.map_cons, List.flatMap_cons, List.flatten_cons,
      List.flatMap_append]
    rw [ih2, flatMap_sep_of_ne_nil g hg]

lemma joinSep_flatten (groups : List (List (List Char)))
    (h : ∀ g ∈ groups, g ≠ []) :
    joinSep (groups.map joinSep) = joinSep groups.flatten := by
  induction groups with
  | nil => rfl
  | cons g gs ih =>
    have hg : g ≠ [] := h g (by simp)
    simp only [List.map_cons, List.flatten_cons]
    have hunf : joinSep (joinSep g :: gs.map joinSep) =
        joinSep g ++ (gs.map joinSep).flatMap (fun y => ' ' :: y) := by
      simp [joinSep]
    rw [hunf, joinSep_append_of_ne_nil g gs.flatten hg,
      flatMap_sep_map_joinSep gs (fun x hx => h x (by simp [hx]))]

lemma wrap_fold_join (max_chars : Int) (ws : List (List Char)) :
    ∀ (groups : List (List (List Char))) (cur : List (List Char)) (cur_len : Int),
      cur ≠ [] → (∀ g ∈ groups, g ≠ []) →
      joinSep (wrapFinish
        (ws.foldl (wrapStep max_chars) (groups.map joinSep, cur, cur_len))) =
        joinSep (groups.flatten ++ cur ++ ws) := by
  induction ws with
  | nil =>
    intro groups cur cur_len hcur hg
    have hall : ∀ g ∈ groups ++ [cur], g ≠ [] := by
      intro g hgm
      rcases List.mem_append.mp hgm with h | h
      · exact hg g h
      · have hco := List.mem_singleton.mp h
        subst hco
        exact hcur
    have hmap : groups.map joinSep ++ [joinSep cur] = (groups ++ [cur]).map joinSep := by
      simp
    simp only [List.foldl_nil, wrapFinish, if_pos hcur, hmap]
    rw [joinSep_flatten _ hall]
    simp [List.flatten_append]
  | cons w ws ih =>
    intro groups cur cur_len hcur hg
    have hall : ∀ g ∈ groups ++ [cur], g ≠ [] := by
      intro g hgm
      rcases List.mem_append.mp hgm with h | h
      · exact hg g h
      · have hco := List.mem_singleton.mp h
        subst hco
        exact hcur
    simp only [List.foldl_cons, wrapStep]
    split_ifs with hc
    · rw [ih groups (cur ++ [w]) _ (by simp) hg]
      simp
    · have hmap : groups.map joinSep ++ [joinSep cur] =
          (groups ++ [cur]).map joinSep := by simp
      rw [hmap, ih (groups ++ [cur]) [w] _ (by simp) hall]
      simp [List.flatten_append]

/-- C3 counterexample: on the blank (whitespace-only) string the helper returns
the one-element sequence holding the empty string, not the empty sequence the
claim states. -/
theorem wrap_blank_counterexample :
    _wrap_text (some [' ']) 70 = [[]] ∧ ([[]] : List (List Char)) ≠ [] := by
  constructor
  · decide
  · decide

/-- C3 (amended): a `None` input yields the empty sequence; an empty or blank
string input yields the single-element sequence holding the empty string; and
for `max_chars <= 0` the helper returns the stripped original as a
single-element sequence without wrapping. -/
theorem wrap_degenerate_inputs :
    (∀ max_chars : Int, _wrap_text none max_chars = []) ∧
    (∀ (t : List Char) (max_chars : Int), pyStrip t = [] →
      _wrap_text (some t) max_chars = [[]]) ∧
    (∀ (t : List Char) (max_chars : Int), max_chars ≤ 0 →
      _wrap_text (some t) max_chars = [pyStrip t]) := by
  refine ⟨fun _ => rfl, fun t mc h => ?_, fun t mc h => ?_⟩
  · simp only [_wrap_text]
    rw [if_pos (Or.inl h), h]
  · simp only [_wrap_text]
    rw [if_pos (Or.inr h)]

/-- C3 witness: the amended statement at the blank string with budget 70 and at
a letter with budget 0. -/
theorem wrap_degenerate_inputs_witness :
    (pyStrip [' '] = [] ∧ _wrap_text (some [' ']) 70 = [[]]) ∧
    ((0 : Int) ≤ 0 ∧ _wrap_text (some ['a']) 0 = [pyStrip ['a']]) :=
  ⟨⟨by decide, wrap_degenerate_inputs.2.1 [' '] 70 (by decide)⟩,
   ⟨by decide, wrap_degenerate_inputs.2.2 ['a'] 0 (by decide)⟩⟩

/-- C10 counterexample: for the non-blank one-word text of six letters and
budget 1 the wrapper emits a leading empty line, so the space-joined wrap output
carries a leading space and the round trip fails. -/
theorem wrap_round_trip_counterexample :
    pyStrip ['a', 'b', 'c', 'd', 'e', 'f'] ≠ [] ∧ (0 : Int) < 1 ∧
    joinSep (_wrap_text (some ['a', 'b', 'c', 'd', 'e', 'f']) 1) ≠
      joinSep (pySplit ['a', 'b', 'c', 'd', 'e', 'f']) := by
  refine ⟨by decide, by decide, by decide⟩

/-- C10 (amended): for every text and budget `max_chars > 0` such that the FIRST
word of the text fits the budget, joining the wrapped lines with single spaces
equals the words of the text joined with single spaces: wrapping preserves every
word, in order, without duplication or loss. (When the first word is longer than
the budget the code flushes an empty first line, see the counterexample.) -/
theorem wrap_round_trip (s : List Char) (max_chars : Int)
    (h1 : pyStrip s ≠ []) (h2 : 0 < max_chars)
    (h3 : ∀ w, (pySplit (pyStrip s)).head? = some w →
      (w.length : Int) ≤ max_chars) :
    joinSep (_wrap_text (some s) max_chars) = joinSep (pySplit s) := by
  have hcond : ¬ (pyStrip s = [] ∨ max_chars ≤ 0) := by
    push_neg
    exact ⟨h1, by omega⟩
  simp only [_wrap_text]
  rw [if_neg hcond, ← pySplit_pyStrip s]
  cases hw : pySplit (pyStrip s) with
  | nil => simp [wrapFinish]
  | cons w ws =>
    have hfit : (w.length : Int) ≤ max_chars := h3 w (by rw [hw]; rfl)
    rw [List.foldl_cons]
    have hstep : wrapStep max_chars ([], ([] : List (List Char)), (0 : Int)) w =
        ([], [w], (w.length : Int)) := by
      simp [wrapStep, hfit]
    rw [hstep]
    have hmain := wrap_fold_join max_chars ws [] [w] (w.length : Int)
      (by simp) (by simp)
    simpa using hmain

/-- C10 witness: the round trip at the two-word text "ab c" with budget 5. -/
theorem wrap_round_trip_witness :
    pyStrip ['a', 'b', ' ', 'c'] ≠ [] ∧ (0 : Int) < 5 ∧
    (pySplit (pyStrip ['a', 'b', ' ', 'c'])).head? = some ['a', 'b'] ∧
    joinSep (_wrap_text (some ['a', 'b', ' ', 'c']) 5) =
      joinSep (pySplit ['a', 'b', ' ', 'c']) := by
  refine ⟨by decide, by decide, by decide,
    wrap_round_trip ['a', 'b', ' ', 'c'] 5 (by decide) (by decide) ?_⟩
  intro w hw
  rw [show (pySplit (pyStrip ['a', 'b', ' ', 'c'])).head? = some ['a', 'b'] from
    by decide] at hw
  injection hw with h
  subst h
  decide

/-! Lemmas about the pagination planner. -/

lemma planStep_flatten (cfg : LayoutCfg) (s : PlanState) (e : Entry) :
    ((planStep cfg s e).pages).flatten ++ (planStep cfg s e).cur_page =
      (s.pages.flatten ++ s.cur_page) ++ [e] := by
  unfold planStep
  split_ifs <;> simp [List.flatten_append]

lemma foldl_planStep_flatten (cfg : LayoutCfg) (items : List Entry) :
    ∀ s : PlanState,
      ((items.foldl (planStep cfg) s).pages).flatten ++
        (items.foldl (planStep cfg) s).cur_page =
        (s.pages.flatten ++ s.cur_page) ++ items := by
  induction items with
  | nil => intro s; simp
  | cons e items ih =>
    intro s
    rw [List.foldl_cons, ih (planStep cfg s e), planStep_flatten]
    simp

lemma paginate_flatten (cfg : LayoutCfg) (items : List Entry) :
    (paginate cfg items).flatten = items := by
  have h := foldl_planStep_flatten cfg items ⟨[], [], cfg.Y_FIRST_ITEM⟩
  simp only [List.flatten_nil, List.nil_append] at h
  simp only [paginate]
  split_ifs with hc
  · simpa [hc] using h
  · simpa [List.flatten_append] using h

lemma paginate_singleton (cfg : LayoutCfg) (e : Entry) :
    paginate cfg [e] = [[e]] := by
  simp [paginate, planStep]

lemma planStep_pages_ne_nil (cfg : LayoutCfg) (s : PlanState) (e : Entry)
    (h : ∀ p ∈ s.pages, p ≠ []) : ∀ p ∈ (planStep cfg s e).pages, p ≠ [] := by
  unfold planStep
  split_ifs with hg
  · intro p hp
    rcases List.mem_append.mp hp with hm | hm
    · exact h p hm
    · have hco := List.mem_singleton.mp hm
      subst hco
      exact hg.1
  · exact h

lemma foldl_planStep_pages_ne_nil (cfg : LayoutCfg) (items : List Entry) :
    ∀ s : PlanState, (∀ p ∈ s.pages, p ≠ []) →
      ∀ p ∈ (items.foldl (planStep cfg) s).pages, p ≠ [] := by
  induction items with
  | nil => intro s h; exact h
  | cons e items ih =>
    intro s h
    exact ih (planStep cfg s e) (planStep_pages_ne_nil cfg s e h)

lemma itemsSorted_perm (m : List Entry) : List.Perm (itemsSorted m) m :=
  List.perm_insertionSort _ m

lemma itemsSorted_ne_nil (m : List Entry) (h : m ≠ []) : itemsSorted m ≠ [] := by
  intro hc
  have hp := itemsSorted_perm m
  rw [hc] at hp
  exact h (List.Perm.nil_eq hp).symm

/-- C1: the planner starts a new page before placing an item exactly when the
current page already holds at least one item and the cursor minus the item
footprint falls below the bottom cutoff, the footprint being one row height plus
four detail-line heights exactly for a structured (dict) description plus the
configured inter-row gap; and a lone item is always placed on its own single
page, however large its footprint, so an item is never split or rejected. -/
theorem pagination_break_condition (cfg : LayoutCfg) (s : PlanState) (e : Entry) :
    ((planStep cfg s e).pages ≠ s.pages ↔
      s.cur_page ≠ [] ∧
        s.cur_y - (cfg.ITEM_LEADING +
            (if isDict e.2.description then 4 * cfg.DETAIL_LEADING else 0) +
            cfg.ROW_GAP) <
          cfg.PAGE_BOTTOM_Y_CUTOFF) ∧
    paginate cfg [e] = [[e]] := by
  constructor
  · have hfoot : s.cur_y - (cfg.ITEM_LEADING +
        (if isDict e.2.description then 4 * cfg.DETAIL_LEADING else 0) +
        cfg.ROW_GAP) = s.cur_y - needH cfg e.2 := by
      simp [needH, estimate_item_height]
    rw [hfoot]
    unfold planStep
    split_ifs with hg
    · refine iff_of_true ?_ hg
      intro hEq
      have hlen := congrArg List.length hEq
      simp at hlen
    · simpa using hg
  · exact paginate_singleton cfg e

/-- C2: the concatenation of the planned pages is exactly the sorted item
sequence, which is a permutation of the input items: every item lands on
exactly one page, in sorted-key order, with no duplication or loss. -/
theorem pagination_preserves_items (cfg : LayoutCfg) (m : List Entry) :
    (paginate cfg (itemsSorted m)).flatten = itemsSorted m ∧
      List.Perm (itemsSorted m) m :=
  ⟨paginate_flatten cfg (itemsSorted m), itemsSorted_perm m⟩

/-- C9: the planner never emits an empty page, and the empty item sequence
yields zero pages. -/
theorem pagination_no_empty_pages (cfg : LayoutCfg) (items : List Entry) :
    (∀ p ∈ paginate cfg items, p ≠ []) ∧
      paginate cfg ([] : List Entry) = [] := by
  constructor
  · intro p hp
    have hbody := foldl_planStep_pages_ne_nil cfg items
      ⟨[], [], cfg.Y_FIRST_ITEM⟩ (by simp)
    simp only [paginate] at hp
    split_ifs at hp with hc
    · exact hbody p hp
    · rcases List.mem_append.mp hp with hm | hm
      · exact hbody p hm
      · have hco := List.mem_singleton.mp hm
        subst hco
        exact hc
  · simp [paginate]

/-- C9 witness: a one-item input yields the single page holding that item,
which is non-empty. -/
theorem pagination_no_empty_pages_witness :
    ([(("1" : String), itemA)] ∈ paginate defaultLayout [(("1" : String), itemA)]) ∧
      [(("1" : String), itemA)] ≠ ([] : List Entry) :=
  ⟨by rw [paginate_singleton]; exact List.mem_singleton.mpr rfl,
   (pagination_no_empty_pages defaultLayout [(("1" : String), itemA)]).1 _
     (by rw [paginate_singleton]; exact List.mem_singleton.mpr rfl)⟩

/-- C4 counterexample: the key function maps every non-numeric key to the
sentinel `10 ** 9`, so the numeric key 1000000001 sorts AFTER the non-numeric
key zz, refuting that every non-numeric key is placed after every numeric key. -/
theorem item_order_counterexample :
    pyInt "zz" = none ∧
    pyInt "1000000001" = some 1000000001 ∧
    itemsSorted [("1000000001", itemA), ("zz", itemB)] =
      [("zz", itemB), ("1000000001", itemA)] := by
  refine ⟨by decide, by decide, by decide⟩

/-- C4 (amended): items are processed in ascending order of the sort key, where
a numeric key maps to its integer value and a non-numeric key to the sentinel
`10 ** 9`; consequently every non-numeric key comes after every numeric key
whose value is below `10 ** 9`, while numeric keys valued `10 ** 9` or more may
precede or follow non-numeric keys. -/
theorem item_order_amended (m : List Entry) :
    List.Perm (itemsSorted m) m ∧
    (itemsSorted m).Pairwise (fun a b => _key_int a.1 ≤ _key_int b.1) ∧
    ∀ i j : Fin (itemsSorted m).length,
      pyInt ((itemsSorted m).get i).1 = none →
      (∃ v : Int, pyInt ((itemsSorted m).get j).1 = some v ∧ v < 10 ^ 9) →
      (j : ℕ) < (i : ℕ) := by
  letI : IsTotal Entry (fun a b => _key_int a.1 ≤ _key_int b.1) :=
    ⟨fun a b => le_total _ _⟩
  letI : IsTrans Entry (fun a b => _key_int a.1 ≤ _key_int b.1) :=
    ⟨fun a b c hab hbc => le_trans hab hbc⟩
  have hpair : (itemsSorted m).Pairwise (fun a b => _key_int a.1 ≤ _key_int b.1) :=
    List.sorted_insertionSort _ m
  refine ⟨itemsSorted_perm m, hpair, ?_⟩
  intro i j hnone hsome
  obtain ⟨v, hv, hvlt⟩ := hsome
  by_contra hnot
  push_neg at hnot
  have hki : _key_int ((itemsSorted m).get i).1 = 10 ^ 9 := by
    unfold _key_int
    rw [hnone]
  have hkj : _key_int ((itemsSorted m).get j).1 = v := by
    unfold _key_int
    rw [hv]
  rcases Nat.lt_or_ge (i : ℕ) (j : ℕ) with hlt | hge
  · have hr := (List.pairwise_iff_get.mp hpair) i j (Fin.lt_def.mpr hlt)
    rw [hki, hkj] at hr
    exact absurd hvlt (not_lt.mpr hr)
  · have heq : i = j := Fin.ext (le_antisymm hnot hge)
    subst heq
    rw [hnone] at hv
    exact Option.noConfusion hv

/-- C4 witness: with keys x (non-numeric) and 2 (numeric, below the sentinel),
the non-numeric entry lands at position 1, after the numeric one at position 0. -/
theorem item_order_amended_witness :
    pyInt ((itemsSorted [("x", itemA), ("2", itemB)]).get ⟨1, by decide⟩).1 = none ∧
    (∃ v : Int,
      pyInt ((itemsSorted [("x", itemA), ("2", itemB)]).get ⟨0, by decide⟩).1 =
        some v ∧ v < 10 ^ 9) ∧
    (0 : ℕ) < 1 :=
  ⟨by decide, ⟨2, by decide, by decide⟩,
   (item_order_amended [("x", itemA), ("2", itemB)]).2.2 ⟨1, by decide⟩
     ⟨0, by decide⟩ (by decide) ⟨2, by decide, by decide⟩⟩

/-! Lemmas about the merge loop. -/

lemma foldl_mergeStep_blank {α : Type} (ov : List (List α)) (is : List Nat) :
    ∀ s : MergeState α, (is.foldl (mergeStep ov) s).blank_pages = s.blank_pages := by
  induction is with
  | nil => intro s; rfl
  | cons i is ih =>
    intro s
    rw [List.foldl_cons, ih]
    simp [mergeStep]

lemma foldl_mergeStep_writer {α : Type} (ov : List (List α)) (is : List Nat) :
    ∀ s : MergeState α, (is.foldl (mergeStep ov) s).writer_pages =
      s.writer_pages ++ is.map (fun i =>
        s.blank_pages.getD (min i (s.blank_pages.length - 1)) [] ++ ov.getD i []) := by
  induction is with
  | nil => intro s; simp
  | cons i is ih =>
    intro s
    rw [List.foldl_cons, ih]
    simp [mergeStep]

lemma mergeDocs_eq {α : Type} (blank overlay : List (List α)) :
    mergeDocs blank overlay = (List.range overlay.length).map
      (fun i => blank.getD (min i (blank.length - 1)) [] ++ overlay.getD i []) := by
  unfold mergeDocs
  rw [foldl_mergeStep_writer]
  simp

/-- C5: the merged output has exactly as many pages as the overlay document,
never the template page count; output page i is an independent copy of template
page `min(i, N-1)` with overlay page i composited on top of it alone, so no
overlay content from earlier iterations accumulates; and the template pages ride
through the whole loop unchanged. -/
theorem merge_page_semantics (α : Type) (blank overlay : List (List α))
    (_hN : blank ≠ []) (_hM : overlay ≠ []) :
    (mergeDocs blank overlay).length = overlay.length ∧
    (∀ i, i < overlay.length →
      (mergeDocs blank overlay).getD i [] =
        blank.getD (min i (blank.length - 1)) [] ++ overlay.getD i []) ∧
    ((List.range overlay.length).foldl (mergeStep overlay)
        (⟨blank, []⟩ : MergeState α)).blank_pages = blank := by
  refine ⟨?_, ?_, foldl_mergeStep_blank overlay (List.range overlay.length) _⟩
  · rw [mergeDocs_eq]
    simp
  · intro i hi
    rw [mergeDocs_eq, List.getD_eq_getElem?_getD, List.getElem?_map,
      List.getElem?_range hi]
    rfl

/-- C5 witness: a one-page template merged with a two-page overlay yields two
pages, and the second output page reuses the template page with only the second
overlay page on top. -/
theorem merge_page_semantics_witness :
    (([[0]] : List (List ℕ)) ≠ [] ∧ ([[1], [2]] : List (List ℕ)) ≠ []) ∧
    (mergeDocs ([[0]] : List (List ℕ)) [[1], [2]]).length = 2 ∧
    (mergeDocs ([[0]] : List (List ℕ)) [[1], [2]]).getD 1 [] = [0, 2] := by
  have h := merge_page_semantics ℕ [[0]] [[1], [2]] (by decide) (by decide)
  refine ⟨⟨by decide, by decide⟩, ?_, ?_⟩
  · simpa using h.1
  · simpa using h.2.1 1 (by decide)

/-! Lemmas about the subtotal fold. -/

lemma pageSubtotal_eq (st : ℚ) (p : List Entry) :
    pageSubtotal st p = st + (p.map (fun e => amount e.2)).sum := by
  induction p generalizing st with
  | nil => simp [pageSubtotal]
  | cons e p ih =>
    rw [show pageSubtotal st (e :: p) = pageSubtotal (st + amount e.2) p from rfl, ih]
    simp [add_assoc]

lemma renderAmountsAux_eq (vat : ℚ) (ps : List (List Entry)) :
    ∀ st : ℚ, ps ≠ [] →
      renderAmountsAux vat ps st =
        some (st + specSubtotal ps, (st + specSubtotal ps) * vat,
          st + specSubtotal ps + (st + specSubtotal ps) * vat) := by
  induction ps with
  | nil => intro st h; exact absurd rfl h
  | cons p ps ih =>
    intro st _
    cases ps with
    | nil => simp [renderAmountsAux, pageSubtotal_eq, specSubtotal]
    | cons q ps2 =>
      rw [show renderAmountsAux vat (p :: q :: ps2) st =
          renderAmountsAux vat (q :: ps2) (pageSubtotal st p) from rfl]
      rw [ih (pageSubtotal st p) (by simp)]
      have hsub : pageSubtotal st p + specSubtotal (q :: ps2) =
          st + specSubtotal (p :: q :: ps2) := by
        rw [pageSubtotal_eq]
        simp [specSubtotal, add_assoc]
      rw [hsub]

lemma paginate_ne_nil (cfg : LayoutCfg) (items : List Entry) (h : items ≠ []) :
    paginate cfg items ≠ [] := by
  intro hc
  have hf := paginate_flatten cfg items
  rw [hc] at hf
  simp only [List.flatten_nil] at hf
  exact h hf.symm

/-- C6: on the last drawn page `total = subtotal + subtotal * vat_rate` exactly,
where the running subtotal is the sum of `quantity * price` (missing fields read
as 0) over all items of all pages, not only the last page. -/
theorem totals_arithmetic (cfg : LayoutCfg) (m : List Entry) (vat : ℚ)
    (h : itemsSorted m ≠ []) :
    ∃ subtotal vat_amount total_amount : ℚ,
      renderAmounts vat (paginate cfg (itemsSorted m)) =
        some (subtotal, vat_amount, total_amount) ∧
      subtotal = specSubtotal (paginate cfg (itemsSorted m)) ∧
      subtotal = ((itemsSorted m).map (fun e => amount e.2)).sum ∧
      vat_amount = subtotal * vat ∧
      total_amount = subtotal + subtotal * vat := by
  have hp : paginate cfg (itemsSorted m) ≠ [] := paginate_ne_nil cfg _ h
  have he := renderAmountsAux_eq vat (paginate cfg (itemsSorted m)) 0 hp
  refine ⟨0 + specSubtotal (paginate cfg (itemsSorted m)),
    (0 + specSubtotal (paginate cfg (itemsSorted m))) * vat,
    0 + specSubtotal (paginate cfg (itemsSorted m)) +
      (0 + specSubtotal (paginate cfg (itemsSorted m))) * vat,
    he, by simp, ?_, rfl, by simp⟩
  simp [specSubtotal, paginate_flatten]

/-- C6 witness: the two-item invoice of the usage example, with `vat = 7/20`. -/
theorem totals_arithmetic_witness :
    itemsSorted [(("1" : String), structItem), (("2" : String), plainItem)] ≠ [] ∧
    ∃ subtotal vat_amount total_amount : ℚ,
      renderAmounts (7 / 20) (paginate defaultLayout
          (itemsSorted [(("1" : String), structItem), (("2" : String), plainItem)])) =
        some (subtotal, vat_amount, total_amount) ∧
      subtotal = specSubtotal (paginate defaultLayout
          (itemsSorted [(("1" : String), structItem), (("2" : String), plainItem)])) ∧
      subtotal = ((itemsSorted
          [(("1" : String), structItem), (("2" : String), plainItem)]).map
          (fun e => amount e.2)).sum ∧
      vat_amount = subtotal * (7 / 20) ∧
      total_amount = subtotal + subtotal * (7 / 20) :=
  ⟨itemsSorted_ne_nil _ (by simp),
   totals_arithmetic defaultLayout _ (7 / 20) (itemsSorted_ne_nil _ (by simp))⟩

/-- C7: a native date is accepted unchanged; a string date is tried against
exactly the four formats DD-MM-YYYY, YYYY-MM-DD, DD/MM/YYYY, YYYY/MM/DD in that
order, the first match wins, and when none of the four matches the invocation
fails fast with the descriptive error message. -/
theorem date_parsing_dispatch :
    (∀ d : PyDate, parseDate (.native d) = Except.ok d) ∧
    (∀ (s : String) (d : PyDate),
      strptime ⟨.dmy, '-'⟩ s = some d → parseDate (.str s) = Except.ok d) ∧
    (∀ (s : String) (d : PyDate), strptime ⟨.dmy, '-'⟩ s = none →
      strptime ⟨.ymd, '-'⟩ s = some d → parseDate (.str s) = Except.ok d) ∧
    (∀ (s : String) (d : PyDate), strptime ⟨.dmy, '-'⟩ s = none →
      strptime ⟨.ymd, '-'⟩ s = none →
      strptime ⟨.dmy, '/'⟩ s = some d → parseDate (.str s) = Except.ok d) ∧
    (∀ (s : String) (d : PyDate), strptime ⟨.dmy, '-'⟩ s = none →
      strptime ⟨.ymd, '-'⟩ s = none → strptime ⟨.dmy, '/'⟩ s = none →
      strptime ⟨.ymd, '/'⟩ s = some d → parseDate (.str s) = Except.ok d) ∧
    (∀ s : String, strptime ⟨.dmy, '-'⟩ s = none → strptime ⟨.ymd, '-'⟩ s = none →
      strptime ⟨.dmy, '/'⟩ s = none → strptime ⟨.ymd, '/'⟩ s = none →
      parseDate (.str s) = Except.error unrecognizedDateMsg) := by
  refine ⟨fun d => rfl, fun s d h1 => ?_, fun s d h1 h2 => ?_,
    fun s d h1 h2 h3 => ?_, fun s d h1 h2 h3 h4 => ?_, fun s h1 h2 h3 h4 => ?_⟩
  · simp [parseDate, dateFormats, List.findSome?, h1]
  · simp [parseDate, dateFormats, List.findSome?, h1, h2]
  · simp [parseDate, dateFormats, List.findSome?, h1, h2, h3]
  · simp [parseDate, dateFormats, List.findSome?, h1, h2, h3, h4]
  · simp [parseDate, dateFormats, List.findSome?, h1, h2, h3, h4]

/-- C7 witness: the example date string parses under the first format, a
year-first string falls through to the second, a garbage string raises the
error, and a two-digit year matches no format (the year field takes exactly
four digits) so it raises the error as well. -/
theorem date_parsing_dispatch_witness :
    (strptime ⟨.dmy, '-'⟩ "16-07-2025" = some ⟨2025, 7, 16⟩ ∧
      parseDate (.str "16-07-2025") = Except.ok ⟨2025, 7, 16⟩) ∧
    (strptime ⟨.dmy, '-'⟩ "2025-07-16" = none ∧
      strptime ⟨.ymd, '-'⟩ "2025-07-16" = some ⟨2025, 7, 16⟩ ∧
      parseDate (.str "2025-07-16") = Except.ok ⟨2025, 7, 16⟩) ∧
    (strptime ⟨.dmy, '-'⟩ "July 16" = none ∧ strptime ⟨.ymd, '-'⟩ "July 16" = none ∧
      strptime ⟨.dmy, '/'⟩ "July 16" = none ∧ strptime ⟨.ymd, '/'⟩ "July 16" = none ∧
      parseDate (.str "July 16") = Except.error unrecognizedDateMsg) ∧
    (strptime ⟨.dmy, '-'⟩ "16-07-25" = none ∧ strptime ⟨.ymd, '-'⟩ "16-07-25" = none ∧
      strptime ⟨.dmy, '/'⟩ "16-07-25" = none ∧ strptime ⟨.ymd, '/'⟩ "16-07-25" = none ∧
      parseDate (.str "16-07-25") = Except.error unrecognizedDateMsg) :=
  ⟨⟨by decide, date_parsing_dispatch.2.1 "16-07-2025" ⟨2025, 7, 16⟩ (by decide)⟩,
   ⟨by decide, by decide,
    date_parsing_dispatch.2.2.1 "2025-07-16" ⟨2025, 7, 16⟩ (by decide) (by decide)⟩,
   ⟨by decide, by decide, by decide, by decide,
    date_parsing_dispatch.2.2.2.2.2 "July 16"
      (by decide) (by decide) (by decide) (by decide)⟩,
   ⟨by decide, by decide, by decide, by decide,
    date_parsing_dispatch.2.2.2.2.2 "16-07-25"
      (by decide) (by decide) (by decide) (by decide)⟩⟩

/-- C8: font resolution is total and, whenever the requested value is neither a
truthy string naming an existing font file nor a truthy string naming a standard
font (in particular for None, a non-string, or the empty string), it silently
returns the built-in fallback: Helvetica-Bold when bold is set, else Helvetica. -/
theorem font_fallback (isFontFile : String → Bool) (alias_name : String)
    (v : PyVal) (bold : Bool)
    (h : ∀ s, v = PyVal.str s → s ≠ "" → isFontFile s = false ∧ s ∉ standardFonts) :
    _resolve_font isFontFile alias_name v bold =
      if bold then "Helvetica-Bold" else "Helvetica" := by
  cases v with
  | none => rfl
  | other => rfl
  | str s =>
    by_cases hs : s = ""
    · subst hs
      simp [_resolve_font]
    · obtain ⟨h1, h2⟩ := h s rfl hs
      simp [_resolve_font, hs, h1, h2]

/-- C8 witness: an unknown name with no matching file falls back to the bold
built-in. -/
theorem font_fallback_witness :
    ((fun _ : String => false) "nope" = false ∧ "nope" ∉ standardFonts) ∧
    _resolve_font (fun _ => false) "MainFont-Bold" (PyVal.str "nope") true =
      "Helvetica-Bold" :=
  ⟨⟨rfl, by decide⟩,
   by
    have h := font_fallback (fun _ => false) "MainFont-Bold" (PyVal.str "nope") true
      (fun s hs hne => by
        cases hs
        exact ⟨rfl, by decide⟩)
    simpa using h⟩
